import Mathlib

/-!
Verification of the ACME client registry (`pkg/acme/accounts/registry.go`).

The registry caches per-issuer ACME clients keyed by the issuer UID, stores
with each client the `stableOptions` fingerprint of the inputs that were used
to construct it, and rebuilds the client only when that fingerprint changes.
The Go map `map[string]clientWithMeta` is embedded as an association list with
Go-map lookup/assign/delete semantics; the mutex-guarded methods become pure
state-passing functions (each method body runs atomically under the registry
lock, so one Lean function application per call is the faithful granularity).
`ensureClient` additionally returns how many times the client factory
`NewClient` was invoked during the call (0 or 1), so that claims about
"construction happens exactly once" are statements about the code, not about
an external test harness.
-/

namespace Accounts

/-- Errors surfaced by the registry. `errNotFound` embeds the distinguished
`ErrNotFound` value (`errors.New(...)`) returned by `GetClient`;
`nilPointerDereference` embeds the Go run-time panic raised by
`newStableOptions` when it dereferences a nil `*rsa.PrivateKey`. Being
distinct constructors, the two failures are distinguishable. -/
inductive goError where
  | errNotFound
  | nilPointerDereference
deriving DecidableEq

/-- The slice of `cmacme.ACMEIssuer` relevant to the registry: `Server` and
`SkipTLSVerify` are read by `newStableOptions` and `NewClient`; `email` stands
for the remaining configuration fields (Email, Solvers, ...) that neither
function reads. -/
structure ACMEIssuer where
  server : String
  skipTLSVerify : Bool
  email : String
deriving DecidableEq

/-- Public part of `crypto/rsa.PrivateKey`: the modulus is kept as its
byte-exact `GobEncode` encoding (`GobEncode` on `big.Int` is injective and
cannot fail, per the comment in `newStableOptions`), the exponent as the Go
`int` field `E`. -/
structure rsaPublicKey where
  nBytes : List Nat
  e : Int
deriving DecidableEq

/-- `crypto/rsa.PrivateKey`: the embedded public key plus private material
(`D`, primes), summarised by the private exponent `d`, which fingerprinting
never reads but which is part of the key handed to the client factory. -/
structure rsaPrivateKey where
  publicKey : rsaPublicKey
  d : Int
deriving DecidableEq

/-- `stableOptions`: data about an ACME client used to compare for equality
between two clients, deciding whether a re-initialisation is needed. -/
structure stableOptions where
  serverURL : String
  skipVerifyTLS : Bool
  issuerUID : String
  publicKey : List Nat
  exponent : Int
deriving DecidableEq

/-- `func (c stableOptions) equalTo(c2 stableOptions) bool { return c == c2 }` —
Go struct comparison, i.e. structural equality of all fields. -/
def stableOptions.equalTo (c c2 : stableOptions) : Bool :=
  decide (c = c2)

/-- `newStableOptions`: fingerprint of `(uid, config, privateKey)`. -/
def newStableOptions (uid : String) (config : ACMEIssuer)
    (privateKey : rsaPrivateKey) : stableOptions :=
  { serverURL := config.server
    skipVerifyTLS := config.skipTLSVerify
    issuerUID := uid
    publicKey := privateKey.publicKey.nBytes
    exponent := privateKey.publicKey.e }

/-- The part of the `http.Client` built by `buildHTTPClient` that depends on
the registry's inputs: the `InsecureSkipVerify` flag of its TLS config (all
other transport fields are fixed constants). -/
structure httpClient where
  insecureSkipVerify : Bool
deriving DecidableEq

/-- `buildHTTPClient` returns an HTTP client for the ACME client with the
given `InsecureSkipVerify` setting. -/
def buildHTTPClient (skipTLSVerify : Bool) : httpClient :=
  { insecureSkipVerify := skipTLSVerify }

/-- Stand-in for `util.CertManagerUserAgent` (defined outside this package);
an opaque string constant that no registry logic inspects. -/
def CertManagerUserAgent : String := "cert-manager"

/-- The `acmeapi.Client` value assembled by `NewClient`: private key, HTTP
client, directory URL and user agent. -/
structure acmeClient where
  key : rsaPrivateKey
  httpClient : httpClient
  directoryURL : String
  userAgent : String
deriving DecidableEq

/-- `NewClient(config, privateKey)`: the client factory. -/
def NewClient (config : ACMEIssuer) (privateKey : rsaPrivateKey) : acmeClient :=
  { key := privateKey
    httpClient := buildHTTPClient config.skipTLSVerify
    directoryURL := config.server
    userAgent := CertManagerUserAgent }

/-- `clientWithMeta`: an ACME client (`iface` embeds `acmecl.Interface`)
together with the `stableOptions` (`opts`) used to instantiate it. -/
structure clientWithMeta where
  iface : acmeClient
  opts : stableOptions
deriving DecidableEq

/-- Go map read `m[k]`: the first binding for `k`, if any. -/
def mapFind {α : Type} : List (String × α) → String → Option α
  | [], _ => none
  | kv :: rest, k => if kv.1 = k then some kv.2 else mapFind rest k

/-- Go map assignment `m[k] = v`: replace the binding for `k`, or append. -/
def mapSet {α : Type} : List (String × α) → String → α → List (String × α)
  | [], k, v => [(k, v)]
  | kv :: rest, k, v => if kv.1 = k then (k, v) :: rest else kv :: mapSet rest k v

/-- Go map deletion `delete(m, k)`: remove every binding for `k`. -/
def mapDel {α : Type} : List (String × α) → String → List (String × α)
  | [], _ => []
  | kv :: rest, k => if kv.1 = k then mapDel rest k else kv :: mapDel rest k

/-- The `registry` struct: the `clients` map (the `sync.RWMutex` is modelled
by every method being a single atomic state transformation). -/
structure registry where
  clients : List (String × clientWithMeta)
deriving DecidableEq

/-- `NewDefaultRegistry()`: a registry with an empty clients map. -/
def NewDefaultRegistry : registry :=
  { clients := [] }

/-- `(*registry).ensureClient` under the exclusive lock. Returns the updated
registry together with the number of `NewClient` (factory) invocations the
call performed. Fast path: an entry for `uid` exists and its stored options
`equalTo` the freshly computed ones — return with no mutation and no
construction. Otherwise store a newly constructed client with the new
options. -/
def registry.ensureClient (r : registry) (uid : String) (config : ACMEIssuer)
    (privateKey : rsaPrivateKey) : registry × Nat :=
  let newOpts := newStableOptions uid config privateKey
  match mapFind r.clients uid with
  | some meta =>
      if meta.opts.equalTo newOpts then
        (r, 0)
      else
        ({ clients := mapSet r.clients uid
             { iface := NewClient config privateKey, opts := newOpts } }, 1)
  | none =>
      ({ clients := mapSet r.clients uid
           { iface := NewClient config privateKey, opts := newOpts } }, 1)

/-- `(*registry).AddClient` simply calls `ensureClient`. -/
def registry.AddClient (r : registry) (uid : String) (config : ACMEIssuer)
    (privateKey : rsaPrivateKey) : registry × Nat :=
  r.ensureClient uid config privateKey

/-- Calling `AddClient`/`ensureClient` through a possibly-nil
`*rsa.PrivateKey`. A nil key makes `newStableOptions` panic
(`privateKey.PublicKey.N` dereference) before any state is touched; the panic
propagates synchronously to the caller, modelled as a `goError` alongside the
(unchanged) registry and the (zero) construction count. -/
def registry.ensureClientChecked (r : registry) (uid : String)
    (config : ACMEIssuer) (privateKey : Option rsaPrivateKey) :
    registry × Nat × Option goError :=
  match privateKey with
  | none => (r, 0, some goError.nilPointerDereference)
  | some key =>
      let res := r.ensureClient uid config key
      (res.1, res.2, none)

/-- `(*registry).GetClient`: the registered client for `uid`, or
`ErrNotFound`. -/
def registry.GetClient (r : registry) (uid : String) :
    Except goError acmeClient :=
  match mapFind r.clients uid with
  | some c => Except.ok c.iface
  | none => Except.error goError.errNotFound

/-- `(*registry).RemoveClient`: delete the entry for `uid`; absent keys are a
no-op (the code checks presence first and returns early). -/
def registry.RemoveClient (r : registry) (uid : String) : registry :=
  match mapFind r.clients uid with
  | none => r
  | some _ => { clients := mapDel r.clients uid }

/-- `(*registry).ListClients`: a freshly allocated map holding every
registered client by UID, with the metadata stripped (`out[k] = v.Interface`
over a new `make(map...)`). -/
def registry.ListClients (r : registry) : List (String × acmeClient) :=
  r.clients.map (fun kv => (kv.1, kv.2.iface))

/-- A mutating call through the public interface: `AddClient` (which is
`ensureClient`) or `RemoveClient`. `GetClient`/`ListClients` do not mutate. -/
inductive regOp where
  | add (uid : String) (config : ACMEIssuer) (privateKey : rsaPrivateKey)
  | remove (uid : String)

/-- The UID a mutating call addresses. -/
def regOp.uid : regOp → String
  | .add u _ _ => u
  | .remove u => u

/-- Apply one mutating call to the registry. -/
def regOp.apply (op : regOp) (r : registry) : registry :=
  match op with
  | .add uid config privateKey => (r.AddClient uid config privateKey).1
  | .remove uid => r.RemoveClient uid

/-- Run a sequence of mutating calls, oldest first. -/
def runOps (r : registry) : List regOp → registry
  | [] => r
  | op :: rest => runOps (op.apply r) rest

/-- Registry states reachable from `NewDefaultRegistry` through the public
interface. -/
inductive Reachable : registry → Prop
  | empty : Reachable NewDefaultRegistry
  | add (uid : String) (config : ACMEIssuer) (privateKey : rsaPrivateKey)
      {r : registry} :
      Reachable r → Reachable (r.AddClient uid config privateKey).1
  | remove (uid : String) {r : registry} :
      Reachable r → Reachable (r.RemoveClient uid)

section MapLemmas

variable {α : Type}

theorem mapFind_mapSet_self (m : List (String × α)) (k : String) (v : α) :
    mapFind (mapSet m k v) k = some v := by
  induction m with
  | nil => simp [mapSet, mapFind]
  | cons kv rest ih =>
      by_cases h : kv.1 = k
      · simp [mapSet, h, mapFind]
      · simp [mapSet, h, mapFind, ih]

theorem mapFind_mapSet_ne (m : List (String × α)) {k k' : String} (v : α)
    (h : k' ≠ k) : mapFind (mapSet m k v) k' = mapFind m k' := by
  have hkk' : ¬ k = k' := fun hh => h hh.symm
  induction m with
  | nil => simp [mapSet, mapFind, hkk']
  | cons kv rest ih =>
      by_cases hk : kv.1 = k
      · have hkv : ¬ kv.1 = k' := by rw [hk]; exact hkk'
        simp [mapSet, hk, mapFind, hkk', hkv]
      · have hset : mapSet (kv :: rest) k v = kv :: mapSet rest k v := by
          simp [mapSet, hk]
        rw [hset]
        by_cases hk' : kv.1 = k'
        · simp [mapFind, hk']
        · simp [mapFind, hk', ih]

theorem mapFind_mapDel_self (m : List (String × α)) (k : String) :
    mapFind (mapDel m k) k = none := by
  induction m with
  | nil => simp [mapDel, mapFind]
  | cons kv rest ih =>
      by_cases h : kv.1 = k
      · simp [mapDel, h, ih]
      · simp [mapDel, h, mapFind, ih]

theorem mapFind_mapDel_ne (m : List (String × α)) {k k' : String}
    (h : k' ≠ k) : mapFind (mapDel m k) k' = mapFind m k' := by
  induction m with
  | nil => simp [mapDel]
  | cons kv rest ih =>
      by_cases hk : kv.1 = k
      · have hkk' : ¬ k = k' := fun hh => h hh.symm
        have hkv : ¬ kv.1 = k' := by
          rw [hk]
          exact hkk'
        simp [mapDel, hk, mapFind, hkv, hkk', ih]
      · have hdel : mapDel (kv :: rest) k = kv :: mapDel rest k := by
          simp [mapDel, hk]
        rw [hdel]
        by_cases hk' : kv.1 = k'
        · simp [mapFind, hk']
        · simp [mapFind, hk', ih]

theorem mem_mapSet {m : List (String × α)} {k : String} {v : α}
    {kv : String × α} (h : kv ∈ mapSet m k v) : kv = (k, v) ∨ kv ∈ m := by
  induction m with
  | nil =>
      simp [mapSet] at h
      exact Or.inl h
  | cons hd rest ih =>
      by_cases hk : hd.1 = k
      · simp [mapSet, hk] at h
        rcases h with h | h
        · exact Or.inl h
        · exact Or.inr (List.mem_cons_of_mem _ h)
      · simp [mapSet, hk] at h
        rcases h with h | h
        · exact Or.inr (by simp [h])
        · rcases ih h with h' | h'
          · exact Or.inl h'
          · exact Or.inr (List.mem_cons_of_mem _ h')

theorem mem_mapDel {m : List (String × α)} {k : String} {kv : String × α}
    (h : kv ∈ mapDel m k) : kv ∈ m := by
  induction m with
  | nil => simp [mapDel] at h
  | cons hd rest ih =>
      by_cases hk : hd.1 = k
      · simp [mapDel, hk] at h
        exact List.mem_cons_of_mem _ (ih h)
      · simp [mapDel, hk] at h
        rcases h with h | h
        · simp [h]
        · exact List.mem_cons_of_mem _ (ih h)

theorem mem_keys_mapSet {m : List (String × α)} {k a : String} {v : α}
    (h : a ∈ (mapSet m k v).map Prod.fst) : a = k ∨ a ∈ m.map Prod.fst := by
  simp only [List.mem_map] at h
  rcases h with ⟨kv, hkv, rfl⟩
  rcases mem_mapSet hkv with h' | h'
  · exact Or.inl (by rw [h'])
  · exact Or.inr (List.mem_map_of_mem _ h')

theorem nodup_keys_mapSet {m : List (String × α)} (k : String) (v : α)
    (h : (m.map Prod.fst).Nodup) : ((mapSet m k v).map Prod.fst).Nodup := by
  induction m with
  | nil => simp [mapSet]
  | cons hd rest ih =>
      simp only [List.map_cons, List.nodup_cons] at h
      by_cases hk : hd.1 = k
      · subst hk
        simpa [mapSet, List.nodup_cons] using h
      · have hset : mapSet (hd :: rest) k v = hd :: mapSet rest k v := by
          simp [mapSet, hk]
        rw [hset, List.map_cons, List.nodup_cons]
        refine ⟨?_, ih h.2⟩
        intro hmem
        rcases mem_keys_mapSet hmem with h' | h'
        · exact hk h'
        · exact h.1 h'

theorem nodup_keys_mapDel {m : List (String × α)} (k : String)
    (h : (m.map Prod.fst).Nodup) : ((mapDel m k).map Prod.fst).Nodup := by
  induction m with
  | nil => simp [mapDel]
  | cons hd rest ih =>
      simp only [List.map_cons, List.nodup_cons] at h
      by_cases hk : hd.1 = k
      · simp only [mapDel, hk, if_true]
        exact ih h.2
      · simp only [mapDel, hk, if_false, List.map_cons, List.nodup_cons]
        refine ⟨?_, ih h.2⟩
        intro hmem
        simp only [List.mem_map] at hmem
        rcases hmem with ⟨kv, hkv, heq⟩
        exact h.1 (by
          simp only [List.mem_map]
          exact ⟨kv, mem_mapDel hkv, heq⟩)

theorem mapFind_mem {m : List (String × α)} {k : String} {v : α}
    (h : mapFind m k = some v) : (k, v) ∈ m := by
  induction m with
  | nil => simp [mapFind] at h
  | cons hd rest ih =>
      by_cases hk : hd.1 = k
      · simp only [mapFind, hk, if_true, Option.some.injEq] at h
        subst h
        rw [← hk]
        simp
      · simp only [mapFind, hk, if_false] at h
        exact List.mem_cons_of_mem _ (ih h)

end MapLemmas

section EnsureClientLemmas

/-- Fast path of `ensureClient`: a stored entry whose options equal the fresh
fingerprint means no mutation and no factory call. -/
theorem ensureClient_of_found_eq {r : registry} {uid : String}
    {config : ACMEIssuer} {privateKey : rsaPrivateKey} {meta : clientWithMeta}
    (hfind : mapFind r.clients uid = some meta)
    (heq : meta.opts = newStableOptions uid config privateKey) :
    r.ensureClient uid config privateKey = (r, 0) := by
  simp only [registry.ensureClient, hfind, stableOptions.equalTo, heq]
  simp

/-- Slow path of `ensureClient` when a stale entry is stored. -/
theorem ensureClient_of_found_ne {r : registry} {uid : String}
    {config : ACMEIssuer} {privateKey : rsaPrivateKey} {meta : clientWithMeta}
    (hfind : mapFind r.clients uid = some meta)
    (hne : meta.opts ≠ newStableOptions uid config privateKey) :
    r.ensureClient uid config privateKey =
      ({ clients := mapSet r.clients uid
           { iface := NewClient config privateKey
             opts := newStableOptions uid config privateKey } }, 1) := by
  simp only [registry.ensureClient, hfind, stableOptions.equalTo]
  simp [hne]

/-- Slow path of `ensureClient` when no entry is stored. -/
theorem ensureClient_of_none {r : registry} {uid : String}
    {config : ACMEIssuer} {privateKey : rsaPrivateKey}
    (hfind : mapFind r.clients uid = none) :
    r.ensureClient uid config privateKey =
      ({ clients := mapSet r.clients uid
           { iface := NewClient config privateKey
             opts := newStableOptions uid config privateKey } }, 1) := by
  simp only [registry.ensureClient, hfind]

/-- After any `ensureClient` call, an entry for `uid` is stored and its
options are the fingerprint of the call's inputs. -/
theorem mapFind_ensureClient_self (r : registry) (uid : String)
    (config : ACMEIssuer) (privateKey : rsaPrivateKey) :
    ∃ meta', mapFind (r.ensureClient uid config privateKey).1.clients uid =
        some meta' ∧ meta'.opts = newStableOptions uid config privateKey := by
  cases hfind : mapFind r.clients uid with
  | none =>
      refine ⟨{ iface := NewClient config privateKey
                opts := newStableOptions uid config privateKey }, ?_, rfl⟩
      rw [ensureClient_of_none hfind]
      exact mapFind_mapSet_self _ _ _
  | some meta =>
      by_cases heq : meta.opts = newStableOptions uid config privateKey
      · refine ⟨meta, ?_, heq⟩
        rw [ensureClient_of_found_eq hfind heq]
        exact hfind
      · refine ⟨{ iface := NewClient config privateKey
                  opts := newStableOptions uid config privateKey }, ?_, rfl⟩
        rw [ensureClient_of_found_ne hfind heq]
        exact mapFind_mapSet_self _ _ _

/-- `ensureClient` does not touch entries of other UIDs. -/
theorem mapFind_ensureClient_other (r : registry) {uid uid' : String}
    (config : ACMEIssuer) (privateKey : rsaPrivateKey) (h : uid' ≠ uid) :
    mapFind (r.ensureClient uid config privateKey).1.clients uid' =
      mapFind r.clients uid' := by
  cases hfind : mapFind r.clients uid with
  | none =>
      rw [ensureClient_of_none hfind]
      exact mapFind_mapSet_ne _ _ h
  | some meta =>
      by_cases heq : meta.opts = newStableOptions uid config privateKey
      · rw [ensureClient_of_found_eq hfind heq]
      · rw [ensureClient_of_found_ne hfind heq]
        exact mapFind_mapSet_ne _ _ h

end EnsureClientLemmas

section WitnessData

/-- Concrete issuer configuration used by the closed witness instances. -/
def cfgW : ACMEIssuer :=
  { server := "https://acme.example.com/directory"
    skipTLSVerify := false
    email := "ops@example.com" }

/-- Like `cfgW` but with a different server URL. -/
def cfgW2 : ACMEIssuer :=
  { server := "https://other.example.com/directory"
    skipTLSVerify := false
    email := "ops@example.com" }

/-- Concrete RSA credential used by the closed witness instances. -/
def credW : rsaPrivateKey :=
  { publicKey := { nBytes := [1, 2, 3], e := 65537 }, d := 7 }

/-- Like `credW` but with a different modulus encoding. -/
def credW2 : rsaPrivateKey :=
  { publicKey := { nBytes := [1, 2, 4], e := 65537 }, d := 7 }

/-- Like `credW` but differing only in the private exponent: the public
fingerprint fields coincide with those of `credW`. -/
def credW3 : rsaPrivateKey :=
  { publicKey := { nBytes := [1, 2, 3], e := 65537 }, d := 11 }

end WitnessData

/-- C1: if an entry for `uid` is stored whose fingerprint equals the one
computed from `(uid, config, privateKey)`, `ensureClient` performs no
construction and leaves the registry unchanged; consequently a second call
with byte-identical inputs is always a no-op with zero constructions, and two
successive calls from a state with no matching entry construct exactly once
in total. -/
theorem c1_ensureClient_fast_path_idempotent (r : registry) (uid : String)
    (config : ACMEIssuer) (privateKey : rsaPrivateKey) :
    (∀ meta, mapFind r.clients uid = some meta →
        meta.opts = newStableOptions uid config privateKey →
        r.ensureClient uid config privateKey = (r, 0))
    ∧ (r.ensureClient uid config privateKey).1.ensureClient uid config
          privateKey = ((r.ensureClient uid config privateKey).1, 0)
    ∧ ((∀ meta, mapFind r.clients uid = some meta →
          meta.opts ≠ newStableOptions uid config privateKey) →
        (r.ensureClient uid config privateKey).2 +
          ((r.ensureClient uid config privateKey).1.ensureClient uid config
            privateKey).2 = 1) := by
  have hsecond : (r.ensureClient uid config privateKey).1.ensureClient uid
      config privateKey = ((r.ensureClient uid config privateKey).1, 0) := by
    obtain ⟨meta', hfind', hopts'⟩ :=
      mapFind_ensureClient_self r uid config privateKey
    exact ensureClient_of_found_eq hfind' hopts'
  refine ⟨fun meta hfind heq => ensureClient_of_found_eq hfind heq,
    hsecond, fun hnomatch => ?_⟩
  rw [hsecond]
  cases hfind : mapFind r.clients uid with
  | none =>
      rw [ensureClient_of_none hfind]
      rfl
  | some meta =>
      rw [ensureClient_of_found_ne hfind (hnomatch meta hfind)]
      rfl


/-- Witness for C1 at concrete inputs: from the empty registry, the first
`ensureClient` call plus an identical second call construct exactly one
client. -/
theorem c1_witness :
    (NewDefaultRegistry.ensureClient "uid-1" cfgW credW).2 +
      ((NewDefaultRegistry.ensureClient "uid-1" cfgW credW).1.ensureClient
        "uid-1" cfgW credW).2 = 1 := by
  refine (c1_ensureClient_fast_path_idempotent NewDefaultRegistry "uid-1"
    cfgW credW).2.2 ?_
  intro meta hfind
  simp [NewDefaultRegistry, mapFind] at hfind

/-- C10: `AddClient` performs no validation of the identity key — the empty
string is stored like any other UID, and `GetClient ""` then returns the
constructed client rather than failing. -/
theorem c10_addClient_empty_uid (config : ACMEIssuer)
    (privateKey : rsaPrivateKey) :
    (NewDefaultRegistry.AddClient "" config privateKey).1.GetClient "" =
        Except.ok (NewClient config privateKey)
    ∧ mapFind (NewDefaultRegistry.AddClient "" config privateKey).1.clients
          "" = some { iface := NewClient config privateKey
                      opts := newStableOptions "" config privateKey } := by
  constructor
  · simp [NewDefaultRegistry, registry.AddClient, registry.ensureClient,
      mapFind, mapSet, registry.GetClient]
  · simp [NewDefaultRegistry, registry.AddClient, registry.ensureClient,
      mapFind, mapSet]

/-- Well-formedness of a registry state: keys are duplicate-free, and every
entry stores exactly the fingerprint of the inputs from which its current
client was built. -/
def registryWellFormed (r : registry) : Prop :=
  (r.clients.map Prod.fst).Nodup ∧
  ∀ kv ∈ r.clients, ∃ (config : ACMEIssuer) (privateKey : rsaPrivateKey),
    kv.2.opts = newStableOptions kv.1 config privateKey ∧
    kv.2.iface = NewClient config privateKey

/-- Every state reachable through the public interface is well-formed. -/
theorem reachable_wellFormed {r : registry} (h : Reachable r) :
    registryWellFormed r := by
  induction h with
  | empty => exact ⟨by simp [NewDefaultRegistry], by simp [NewDefaultRegistry]⟩
  | add uid config privateKey hr ih =>
      rename_i r0
      obtain ⟨hnodup, hentries⟩ := ih
      rw [registry.AddClient]
      cases hfind : mapFind r0.clients uid with
      | some meta =>
          by_cases heq : meta.opts = newStableOptions uid config privateKey
          · rw [ensureClient_of_found_eq hfind heq]
            exact ⟨hnodup, hentries⟩
          · rw [ensureClient_of_found_ne hfind heq]
            refine ⟨nodup_keys_mapSet uid _ hnodup, ?_⟩
            intro kv hkv
            rcases mem_mapSet hkv with hkv' | hkv'
            · subst hkv'
              exact ⟨config, privateKey, rfl, rfl⟩
            · exact hentries kv hkv'
      | none =>
          rw [ensureClient_of_none hfind]
          refine ⟨nodup_keys_mapSet uid _ hnodup, ?_⟩
          intro kv hkv
          rcases mem_mapSet hkv with hkv' | hkv'
          · subst hkv'
            exact ⟨config, privateKey, rfl, rfl⟩
          · exact hentries kv hkv'
  | remove uid hr ih =>
      rename_i r0
      obtain ⟨hnodup, hentries⟩ := ih
      rw [registry.RemoveClient]
      cases hfind : mapFind r0.clients uid with
      | none => exact ⟨hnodup, hentries⟩
      | some meta =>
          refine ⟨nodup_keys_mapDel uid hnodup, ?_⟩
          intro kv hkv
          exact hentries kv (mem_mapDel hkv)

/-- C4: from the empty initial state, every sequence of registry operations
preserves the invariant — at most one entry per identity key, and each
entry's stored fingerprint is the fingerprint of the exact inputs from which
its current client was constructed. -/
theorem c4_registry_invariant (r : registry) (h : Reachable r) :
    (r.clients.map Prod.fst).Nodup ∧
    ∀ kv ∈ r.clients, ∃ (config : ACMEIssuer) (privateKey : rsaPrivateKey),
      kv.2.opts = newStableOptions kv.1 config privateKey ∧
      kv.2.iface = NewClient config privateKey :=
  reachable_wellFormed h

/-- Witness for C4: the invariant at the concrete state reached by one
`AddClient` followed by one `RemoveClient` of a different UID. -/
theorem c4_witness :
    ((((NewDefaultRegistry.AddClient "uid-1" cfgW credW).1.RemoveClient
        "uid-2").clients.map Prod.fst).Nodup) ∧
    ∀ kv ∈ ((NewDefaultRegistry.AddClient "uid-1" cfgW credW).1.RemoveClient
        "uid-2").clients,
      ∃ (config : ACMEIssuer) (privateKey : rsaPrivateKey),
        kv.2.opts = newStableOptions kv.1 config privateKey ∧
        kv.2.iface = NewClient config privateKey :=
  c4_registry_invariant _
    (Reachable.remove "uid-2" (Reachable.add "uid-1" cfgW credW
      Reachable.empty))

/-- C2: fingerprint equality is structural equality of all five fields, and
for a stored entry whose fingerprint differs from the newly computed one,
`ensureClient` performs exactly one construction, after which `GetClient`
returns the new client, which is distinct from the previously stored one. -/
theorem c2_fingerprint_fields_and_replacement :
    (∀ c c2 : stableOptions, c.equalTo c2 = true ↔
        (c.serverURL = c2.serverURL ∧ c.skipVerifyTLS = c2.skipVerifyTLS ∧
         c.issuerUID = c2.issuerUID ∧ c.publicKey = c2.publicKey ∧
         c.exponent = c2.exponent))
    ∧ (∀ (r : registry) (uid : String) (config config' : ACMEIssuer)
          (privateKey privateKey' : rsaPrivateKey),
        mapFind r.clients uid =
          some { iface := NewClient config privateKey
                 opts := newStableOptions uid config privateKey } →
        newStableOptions uid config' privateKey' ≠
          newStableOptions uid config privateKey →
        (r.ensureClient uid config' privateKey').2 = 1
        ∧ (r.ensureClient uid config' privateKey').1.GetClient uid =
            Except.ok (NewClient config' privateKey')
        ∧ NewClient config' privateKey' ≠ NewClient config privateKey) := by
  constructor
  · intro c c2
    cases c
    cases c2
    simp [stableOptions.equalTo, stableOptions.mk.injEq]
  · intro r uid config config' privateKey privateKey' hfind hne
    have hslow := ensureClient_of_found_ne hfind (fun hh => hne hh.symm)
    refine ⟨by rw [hslow], ?_, ?_⟩
    · rw [hslow]
      simp [registry.GetClient, mapFind_mapSet_self]
    · intro h
      apply hne
      have hkey : privateKey' = privateKey := congrArg acmeClient.key h
      have hurl : config'.server = config.server :=
        congrArg acmeClient.directoryURL h
      have hskip : config'.skipTLSVerify = config.skipTLSVerify := by
        have := congrArg (fun c => c.httpClient.insecureSkipVerify) h
        simpa [NewClient, buildHTTPClient] using this
      simp [newStableOptions, hurl, hskip, hkey]

/-- Witness for C2 at concrete inputs: after registering `(cfgW, credW)`,
re-ensuring with a changed server URL rebuilds exactly once and replaces the
stored client. -/
theorem c2_witness :
    ((NewDefaultRegistry.ensureClient "uid-1" cfgW credW).1.ensureClient
        "uid-1" cfgW2 credW).2 = 1
    ∧ ((NewDefaultRegistry.ensureClient "uid-1" cfgW credW).1.ensureClient
          "uid-1" cfgW2 credW).1.GetClient "uid-1" =
        Except.ok (NewClient cfgW2 credW)
    ∧ NewClient cfgW2 credW ≠ NewClient cfgW credW :=
  c2_fingerprint_fields_and_replacement.2
    (NewDefaultRegistry.ensureClient "uid-1" cfgW credW).1 "uid-1"
    cfgW cfgW2 credW credW (by rfl) (by decide)

/-- C3 fails as stated: `EnsureClient` with a credential whose public
fingerprint fields match the stored entry (here: same modulus and exponent,
different private exponent) takes the fast path, so `GetClient` afterwards
returns the previously stored client, which was not built from the inputs of
the last `EnsureClient` call. -/
theorem c3_counterexample :
    (((NewDefaultRegistry.ensureClient "uid-1" cfgW credW).1.ensureClient
        "uid-1" cfgW credW3).1.GetClient "uid-1") ≠
      Except.ok (NewClient cfgW credW3) := by
  have h1 : (((NewDefaultRegistry.ensureClient "uid-1" cfgW credW).1.ensureClient
      "uid-1" cfgW credW3).1.GetClient "uid-1") =
        Except.ok (NewClient cfgW credW) := by rfl
  rw [h1]
  intro h
  have h2 : NewClient cfgW credW = NewClient cfgW credW3 := Except.ok.inj h
  have h3 : credW = credW3 := congrArg acmeClient.key h2
  exact absurd h3 (by decide)

/-- C3 amended: after `ensureClient(uid, config, privateKey)` on a reachable
state, `GetClient uid` succeeds and returns a client built by `NewClient`
from inputs whose fingerprint for `uid` equals that of
`(config, privateKey)`; when no stored entry had that fingerprint, the
returned client is built from exactly `(config, privateKey)`. -/
theorem c3_getClient_after_ensure (r : registry) (uid : String)
    (config : ACMEIssuer) (privateKey : rsaPrivateKey) (hr : Reachable r) :
    (∃ (config0 : ACMEIssuer) (privateKey0 : rsaPrivateKey),
        newStableOptions uid config0 privateKey0 =
          newStableOptions uid config privateKey ∧
        (r.ensureClient uid config privateKey).1.GetClient uid =
          Except.ok (NewClient config0 privateKey0))
    ∧ ((∀ meta, mapFind r.clients uid = some meta →
          meta.opts ≠ newStableOptions uid config privateKey) →
        (r.ensureClient uid config privateKey).1.GetClient uid =
          Except.ok (NewClient config privateKey)) := by
  cases hfind : mapFind r.clients uid with
  | none =>
      have hgc : (r.ensureClient uid config privateKey).1.GetClient uid =
          Except.ok (NewClient config privateKey) := by
        rw [ensureClient_of_none hfind]
        simp [registry.GetClient, mapFind_mapSet_self]
      exact ⟨⟨config, privateKey, rfl, hgc⟩, fun _ => hgc⟩
  | some meta =>
      by_cases heq : meta.opts = newStableOptions uid config privateKey
      · obtain ⟨config0, privateKey0, hopts0, hiface0⟩ :=
          (reachable_wellFormed hr).2 (uid, meta) (mapFind_mem hfind)
        have hgc : (r.ensureClient uid config privateKey).1.GetClient uid =
            Except.ok (NewClient config0 privateKey0) := by
          rw [ensureClient_of_found_eq hfind heq]
          simp only [registry.GetClient, hfind]
          rw [hiface0]
        refine ⟨⟨config0, privateKey0, ?_, hgc⟩, ?_⟩
        · rw [← hopts0]
          exact heq
        · intro hnomatch
          exact absurd heq (hnomatch meta rfl)
      · have hgc : (r.ensureClient uid config privateKey).1.GetClient uid =
            Except.ok (NewClient config privateKey) := by
          rw [ensureClient_of_found_ne hfind heq]
          simp [registry.GetClient, mapFind_mapSet_self]
        exact ⟨⟨config, privateKey, rfl, hgc⟩, fun _ => hgc⟩

/-- Witness for the amended C3 at concrete inputs, from the empty (reachable)
registry. -/
theorem c3_witness :
    (∃ (config0 : ACMEIssuer) (privateKey0 : rsaPrivateKey),
        newStableOptions "uid-1" config0 privateKey0 =
          newStableOptions "uid-1" cfgW credW ∧
        (NewDefaultRegistry.ensureClient "uid-1" cfgW credW).1.GetClient
            "uid-1" = Except.ok (NewClient config0 privateKey0))
    ∧ ((∀ meta, mapFind NewDefaultRegistry.clients "uid-1" = some meta →
          meta.opts ≠ newStableOptions "uid-1" cfgW credW) →
        (NewDefaultRegistry.ensureClient "uid-1" cfgW credW).1.GetClient
            "uid-1" = Except.ok (NewClient cfgW credW)) :=
  c3_getClient_after_ensure NewDefaultRegistry "uid-1" cfgW credW
    Reachable.empty

/-- `RemoveClient` never stores anything for the removed UID. -/
theorem mapFind_removeClient_self (r : registry) (uid : String) :
    mapFind (r.RemoveClient uid).clients uid = none := by
  rw [registry.RemoveClient]
  cases hfind : mapFind r.clients uid with
  | none => exact hfind
  | some meta => exact mapFind_mapDel_self _ _

/-- `RemoveClient` does not touch entries of other UIDs. -/
theorem mapFind_removeClient_other (r : registry) {uid uid' : String}
    (h : uid' ≠ uid) :
    mapFind (r.RemoveClient uid).clients uid' = mapFind r.clients uid' := by
  rw [registry.RemoveClient]
  cases hfind : mapFind r.clients uid with
  | none => rfl
  | some meta => exact mapFind_mapDel_ne _ h

/-- Operation sequences that never address `uid` leave `uid`'s (absent)
binding unchanged. -/
theorem mapFind_runOps_untouched {uid : String} (ops : List regOp)
    (h : ∀ op ∈ ops, op.uid ≠ uid) (r : registry) :
    mapFind (runOps r ops).clients uid = mapFind r.clients uid := by
  induction ops generalizing r with
  | nil => rfl
  | cons op rest ih =>
      have hop : op.uid ≠ uid := h op (List.mem_cons_self op rest)
      have hrest : ∀ op' ∈ rest, op'.uid ≠ uid :=
        fun op' hmem => h op' (List.mem_cons_of_mem _ hmem)
      rw [runOps, ih hrest]
      cases op with
      | add u config privateKey =>
          rw [regOp.apply, registry.AddClient]
          exact mapFind_ensureClient_other r config privateKey
            (fun hh => hop hh.symm)
      | remove u =>
          rw [regOp.apply]
          exact mapFind_removeClient_other r (fun hh => hop hh.symm)

/-- C5: `GetClient uid` fails, specifically with `ErrNotFound`, exactly when
no entry for `uid` is registered — in particular after any operation
sequence from the empty registry that never addresses `uid` — and otherwise
returns the stored client with no error. `ErrNotFound` is distinguishable
from the only other failure in the model. -/
theorem c5_getClient_notFound_iff (r : registry) (uid : String) :
    (r.GetClient uid = Except.error goError.errNotFound ↔
      mapFind r.clients uid = none)
    ∧ (∀ meta, mapFind r.clients uid = some meta →
        r.GetClient uid = Except.ok meta.iface)
    ∧ goError.errNotFound ≠ goError.nilPointerDereference
    ∧ (∀ ops : List regOp, (∀ op ∈ ops, op.uid ≠ uid) →
        (runOps NewDefaultRegistry ops).GetClient uid =
          Except.error goError.errNotFound) := by
  refine ⟨?_, ?_, by simp, ?_⟩
  · cases hfind : mapFind r.clients uid with
    | none => simp [registry.GetClient, hfind]
    | some meta => simp [registry.GetClient, hfind]
  · intro meta hfind
    simp [registry.GetClient, hfind]
  · intro ops hops
    simp [registry.GetClient, mapFind_runOps_untouched ops hops,
      NewDefaultRegistry, mapFind]

/-- Witness for C5 at a concrete state: after registering `uid-1`, the
never-registered `uid-2` yields `ErrNotFound` while `uid-1` is returned. -/
theorem c5_witness :
    ((NewDefaultRegistry.ensureClient "uid-1" cfgW credW).1.GetClient "uid-2"
        = Except.error goError.errNotFound ↔
      mapFind (NewDefaultRegistry.ensureClient "uid-1" cfgW
        credW).1.clients "uid-2" = none)
    ∧ (∀ meta, mapFind (NewDefaultRegistry.ensureClient "uid-1" cfgW
          credW).1.clients "uid-2" = some meta →
        (NewDefaultRegistry.ensureClient "uid-1" cfgW credW).1.GetClient
          "uid-2" = Except.ok meta.iface)
    ∧ goError.errNotFound ≠ goError.nilPointerDereference
    ∧ (∀ ops : List regOp, (∀ op ∈ ops, op.uid ≠ "uid-2") →
        (runOps NewDefaultRegistry ops).GetClient "uid-2" =
          Except.error goError.errNotFound) :=
  c5_getClient_notFound_iff
    (NewDefaultRegistry.ensureClient "uid-1" cfgW credW).1 "uid-2"

/-- C6: the only failure on the `EnsureClient` path (a nil credential, which
makes fingerprint computation panic before any state is touched; the factory
itself is total) is reported synchronously, and any failing call leaves the
registry unchanged with zero constructions — the prior entry, if any,
survives. -/
theorem c6_ensure_failure_leaves_state (r : registry) (uid : String)
    (config : ACMEIssuer) (privateKey : Option rsaPrivateKey) :
    ((r.ensureClientChecked uid config privateKey).2.2.isSome ↔
      privateKey = none)
    ∧ (privateKey = none →
        r.ensureClientChecked uid config privateKey =
          (r, 0, some goError.nilPointerDereference))
    ∧ (∀ e, (r.ensureClientChecked uid config privateKey).2.2 = some e →
        (r.ensureClientChecked uid config privateKey).1 = r ∧
        (r.ensureClientChecked uid config privateKey).2.1 = 0) := by
  cases privateKey with
  | none => simp [registry.ensureClientChecked]
  | some key => simp [registry.ensureClientChecked]

/-- Witness for C6: a nil credential aimed at a registry already holding an
entry for the same UID fails and leaves that entry in place. -/
theorem c6_witness :
    (((NewDefaultRegistry.ensureClient "uid-1" cfgW
          credW).1.ensureClientChecked "uid-1" cfgW none).2.2.isSome ↔
      (none : Option rsaPrivateKey) = none)
    ∧ ((none : Option rsaPrivateKey) = none →
        (NewDefaultRegistry.ensureClient "uid-1" cfgW
            credW).1.ensureClientChecked "uid-1" cfgW none =
          ((NewDefaultRegistry.ensureClient "uid-1" cfgW credW).1, 0,
            some goError.nilPointerDereference))
    ∧ (∀ e, ((NewDefaultRegistry.ensureClient "uid-1" cfgW
            credW).1.ensureClientChecked "uid-1" cfgW none).2.2 = some e →
        ((NewDefaultRegistry.ensureClient "uid-1" cfgW
            credW).1.ensureClientChecked "uid-1" cfgW none).1 =
          (NewDefaultRegistry.ensureClient "uid-1" cfgW credW).1 ∧
        ((NewDefaultRegistry.ensureClient "uid-1" cfgW
            credW).1.ensureClientChecked "uid-1" cfgW none).2.1 = 0) :=
  c6_ensure_failure_leaves_state
    (NewDefaultRegistry.ensureClient "uid-1" cfgW credW).1 "uid-1" cfgW none

/-- C7: `RemoveClient` is idempotent — removing an absent UID is a silent
no-op returning the state unchanged (it has no error result at all), and
after a removal `GetClient` for that UID yields `ErrNotFound`. -/
theorem c7_removeClient_idempotent (r : registry) (uid : String) :
    (mapFind r.clients uid = none → r.RemoveClient uid = r)
    ∧ (r.RemoveClient uid).GetClient uid = Except.error goError.errNotFound
    ∧ (r.RemoveClient uid).RemoveClient uid = r.RemoveClient uid := by
  refine ⟨fun hfind => by rw [registry.RemoveClient, hfind], ?_, ?_⟩
  · simp [registry.GetClient, mapFind_removeClient_self]
  · rw [registry.RemoveClient, mapFind_removeClient_self]

/-- Witness for C7: removing the never-registered `uid-2` is a no-op, and
removing the registered `uid-1` makes `GetClient` fail and a second removal
change nothing. -/
theorem c7_witness :
    NewDefaultRegistry.RemoveClient "uid-2" = NewDefaultRegistry
    ∧ (((NewDefaultRegistry.ensureClient "uid-1" cfgW
          credW).1.RemoveClient "uid-1").GetClient "uid-1" =
        Except.error goError.errNotFound)
    ∧ (((NewDefaultRegistry.ensureClient "uid-1" cfgW
          credW).1.RemoveClient "uid-1").RemoveClient "uid-1" =
        (NewDefaultRegistry.ensureClient "uid-1" cfgW
          credW).1.RemoveClient "uid-1") :=
  ⟨(c7_removeClient_idempotent NewDefaultRegistry "uid-2").1 rfl,
    (c7_removeClient_idempotent
      (NewDefaultRegistry.ensureClient "uid-1" cfgW credW).1 "uid-1").2.1,
    (c7_removeClient_idempotent
      (NewDefaultRegistry.ensureClient "uid-1" cfgW credW).1 "uid-1").2.2⟩

/-- Lookup in the metadata-stripped snapshot is lookup in the registry map
followed by stripping. -/
theorem mapFind_listClients (r : registry) (uid : String) :
    mapFind r.ListClients uid =
      Option.map clientWithMeta.iface (mapFind r.clients uid) := by
  rw [registry.ListClients]
  induction r.clients with
  | nil => rfl
  | cons kv rest ih =>
      by_cases hk : kv.1 = uid
      · simp [mapFind, hk]
      · simp [mapFind, hk, ih]

/-- The spec's decoupling experiment for `ListClients`: take the snapshot,
mutate it by a map assignment, and keep the registry alongside. In the
source the snapshot is a freshly allocated `map[string]acmecl.Interface`
(a different type from the internal `map[string]clientWithMeta`), so the
mutation cannot reach the registry; the model reflects that by construction. -/
def snapshotExperiment (r : registry) (k : String) (v : acmeClient) :
    (List (String × acmeClient)) × registry :=
  (mapSet r.ListClients k v, r)

/-- The complementary experiment: take a snapshot, then mutate the registry;
the snapshot value taken beforehand is kept alongside the new registry. -/
def snapshotThenMutate (r : registry) (op : regOp) :
    (List (String × acmeClient)) × registry :=
  (r.ListClients, op.apply r)

/-- C8: `ListClients` returns exactly the registered (uid, client) pairs —
same keys, and lookup returns precisely the stored client for every UID —
and it is a snapshot: mutating the returned mapping leaves every subsequent
`GetClient` answer unchanged, and registry mutations after the snapshot was
taken do not alter the pairs the snapshot reports. -/
theorem c8_listClients_snapshot (r : registry) (uid k : String)
    (v : acmeClient) (op : regOp) :
    mapFind r.ListClients uid =
      Option.map clientWithMeta.iface (mapFind r.clients uid)
    ∧ r.ListClients.map Prod.fst = r.clients.map Prod.fst
    ∧ (snapshotExperiment r k v).2.GetClient uid = r.GetClient uid
    ∧ mapFind (snapshotThenMutate r op).1 uid =
        Option.map clientWithMeta.iface (mapFind r.clients uid) := by
  refine ⟨mapFind_listClients r uid, ?_, rfl, mapFind_listClients r uid⟩
  rw [registry.ListClients, List.map_map]
  rfl

section Concurrency

/-- Where a thread executing `ensureClient(uid, config, privateKey)` stands:
before `r.lock.Lock()`; holding the lock, about to read the map; holding the
lock, having compared the stored fingerprint (`found` is the result of the
fast-path test); or returned. -/
inductive phase where
  | start
  | locked
  | checked (found : Bool)
  | done
deriving DecidableEq

/-- Whether a phase is inside the critical section (between `Lock` and
`Unlock`). -/
def phase.inCrit : phase → Bool
  | .locked => true
  | .checked _ => true
  | _ => false

/-- The fast-path test of `ensureClient`: an entry for `uid` is present and
its stored options `equalTo` the freshly computed fingerprint. -/
def hasCurrent (r : registry) (uid : String) (config : ACMEIssuer)
    (privateKey : rsaPrivateKey) : Bool :=
  match mapFind r.clients uid with
  | some meta => meta.opts.equalTo (newStableOptions uid config privateKey)
  | none => false

/-- Pointwise update of a thread-indexed phase assignment. -/
def updThread (t : Nat → phase) (i : Nat) (p : phase) : Nat → phase :=
  fun j => if j = i then p else t j

theorem updThread_self (t : Nat → phase) (i : Nat) (p : phase) :
    updThread t i p i = p := by
  simp [updThread]

theorem updThread_other (t : Nat → phase) (i : Nat) (p : phase) {j : Nat}
    (h : j ≠ i) : updThread t i p j = t j := by
  simp [updThread, h]

/-- Global state of `n` goroutines concurrently calling
`EnsureClient(uid, config, privateKey)` on a shared registry: the registry,
the number of `NewClient` calls performed so far, the holder of the
registry's write lock, and each thread's phase. -/
structure sys where
  reg : registry
  constructions : Nat
  lock : Option Nat
  threads : Nat → phase

/-- Interleaving semantics: mutual exclusion is enforced exactly as
`sync.Mutex` does — `acquire` requires the lock to be free, and every
critical-section step requires the stepping thread to be the holder. The
critical section is deliberately split into a read/compare step and a
construct/store/unlock step, finer than the source needs, so that the
exactly-once result is proved against every interleaving the lock admits. -/
inductive Step (n : Nat) (uid : String) (config : ACMEIssuer)
    (privateKey : rsaPrivateKey) : sys → sys → Prop where
  | acquire (s : sys) (i : Nat) (hi : i < n)
      (hp : s.threads i = phase.start) (hl : s.lock = none) :
      Step n uid config privateKey s
        { s with lock := some i, threads := updThread s.threads i phase.locked }
  | check (s : sys) (i : Nat) (hi : i < n)
      (hp : s.threads i = phase.locked) (hl : s.lock = some i) :
      Step n uid config privateKey s
        { s with
          threads :=
            updThread s.threads i
              (phase.checked (hasCurrent s.reg uid config privateKey)) }
  | finishFound (s : sys) (i : Nat) (hi : i < n)
      (hp : s.threads i = phase.checked true) (hl : s.lock = some i) :
      Step n uid config privateKey s
        { s with lock := none, threads := updThread s.threads i phase.done }
  | finishBuild (s : sys) (i : Nat) (hi : i < n)
      (hp : s.threads i = phase.checked false) (hl : s.lock = some i) :
      Step n uid config privateKey s
        { reg := { clients := mapSet s.reg.clients uid
                     { iface := NewClient config privateKey
                       opts := newStableOptions uid config privateKey } }
          constructions := s.constructions + 1
          lock := none
          threads := updThread s.threads i phase.done }

/-- Initial state: the shared registry as given, no constructions yet, lock
free, all threads about to call `EnsureClient`. -/
def initSys (r0 : registry) : sys :=
  { reg := r0, constructions := 0, lock := none
    threads := fun _ => phase.start }

/-- States reachable by interleaving the `n` concurrent calls. -/
inductive Reaches (n : Nat) (uid : String) (config : ACMEIssuer)
    (privateKey : rsaPrivateKey) (r0 : registry) : sys → Prop where
  | init : Reaches n uid config privateKey r0 (initSys r0)
  | step {s s' : sys} : Reaches n uid config privateKey r0 s →
      Step n uid config privateKey s s' →
      Reaches n uid config privateKey r0 s'

/-- Inductive invariant of the interleaved system, assuming the initial
registry has no current entry for `uid`: only the lock holder is in the
critical section, and globally either nothing has been constructed yet (no
thread finished, no thread saw the fast path succeed) or exactly one
construction happened and the target entry is stored (and no thread still
intends to construct). -/
def sysInv (uid : String) (config : ACMEIssuer) (privateKey : rsaPrivateKey)
    (s : sys) : Prop :=
  (∀ i, (s.threads i).inCrit = true → s.lock = some i)
  ∧ ((s.constructions = 0
      ∧ hasCurrent s.reg uid config privateKey = false
      ∧ (∀ i, s.threads i ≠ phase.done)
      ∧ (∀ i, s.threads i ≠ phase.checked true))
     ∨ (s.constructions = 1
      ∧ mapFind s.reg.clients uid =
          some { iface := NewClient config privateKey
                 opts := newStableOptions uid config privateKey }
      ∧ (∀ i, s.threads i ≠ phase.checked false)))

/-- The invariant is preserved by every interleaving step. -/
theorem sysInv_step {n : Nat} {uid : String} {config : ACMEIssuer}
    {privateKey : rsaPrivateKey} {s s' : sys}
    (hstep : Step n uid config privateKey s s')
    (hinv : sysInv uid config privateKey s) :
    sysInv uid config privateKey s' := by
  obtain ⟨hexc, hdisj⟩ := hinv
  cases hstep with
  | acquire i hi hp hl =>
      refine ⟨?_, ?_⟩
      · intro j hj
        simp only [] at hj ⊢
        by_cases hji : j = i
        · rw [hji]
        · rw [updThread_other _ _ _ hji] at hj
          have hcontra := hexc j hj
          rw [hl] at hcontra
          cases hcontra
      · rcases hdisj with ⟨h1, h2, h3, h4⟩ | ⟨h1, h2, h3⟩
        · refine Or.inl ⟨h1, h2, ?_, ?_⟩ <;> intro j <;>
            simp only [] <;> by_cases hji : j = i
          · rw [hji, updThread_self]
            simp
          · rw [updThread_other _ _ _ hji]
            exact h3 j
          · rw [hji, updThread_self]
            simp
          · rw [updThread_other _ _ _ hji]
            exact h4 j
        · refine Or.inr ⟨h1, h2, ?_⟩
          intro j
          simp only []
          by_cases hji : j = i
          · rw [hji, updThread_self]
            simp
          · rw [updThread_other _ _ _ hji]
            exact h3 j
  | check i hi hp hl =>
      refine ⟨?_, ?_⟩
      · intro j hj
        simp only [] at hj ⊢
        by_cases hji : j = i
        · rw [hji]
          exact hl
        · rw [updThread_other _ _ _ hji] at hj
          exact hexc j hj
      · rcases hdisj with ⟨h1, h2, h3, h4⟩ | ⟨h1, h2, h3⟩
        · refine Or.inl ⟨h1, h2, ?_, ?_⟩ <;> intro j <;>
            simp only [] <;> by_cases hji : j = i
          · rw [hji, updThread_self]
            simp
          · rw [updThread_other _ _ _ hji]
            exact h3 j
          · rw [hji, updThread_self, h2]
            simp
          · rw [updThread_other _ _ _ hji]
            exact h4 j
        · have hcur : hasCurrent s.reg uid config privateKey = true := by
            rw [hasCurrent, h2]
            simp [stableOptions.equalTo]
          refine Or.inr ⟨h1, h2, ?_⟩
          intro j
          simp only []
          by_cases hji : j = i
          · rw [hji, updThread_self, hcur]
            simp
          · rw [updThread_other _ _ _ hji]
            exact h3 j
  | finishFound i hi hp hl =>
      have hnocrit : ∀ j, ((updThread s.threads i phase.done) j).inCrit =
          true → False := by
        intro j hj
        by_cases hji : j = i
        · rw [hji, updThread_self] at hj
          simp [phase.inCrit] at hj
        · rw [updThread_other _ _ _ hji] at hj
          have hlj := hexc j hj
          rw [hl] at hlj
          injection hlj with hij
          exact hji hij.symm
      refine ⟨?_, ?_⟩
      · intro j hj
        simp only [] at hj
        exact absurd hj (fun hh => hnocrit j hh)
      · rcases hdisj with ⟨h1, h2, h3, h4⟩ | ⟨h1, h2, h3⟩
        · exact absurd hp (h4 i)
        · refine Or.inr ⟨h1, h2, ?_⟩
          intro j
          simp only []
          by_cases hji : j = i
          · rw [hji, updThread_self]
            simp
          · rw [updThread_other _ _ _ hji]
            exact h3 j
  | finishBuild i hi hp hl =>
      have hnocrit : ∀ j, ((updThread s.threads i phase.done) j).inCrit =
          true → False := by
        intro j hj
        by_cases hji : j = i
        · rw [hji, updThread_self] at hj
          simp [phase.inCrit] at hj
        · rw [updThread_other _ _ _ hji] at hj
          have hlj := hexc j hj
          rw [hl] at hlj
          injection hlj with hij
          exact hji hij.symm
      refine ⟨?_, ?_⟩
      · intro j hj
        simp only [] at hj
        exact absurd hj (fun hh => hnocrit j hh)
      · rcases hdisj with ⟨h1, h2, h3, h4⟩ | ⟨h1, h2, h3⟩
        · refine Or.inr ⟨by rw [h1], ?_, ?_⟩
          · simp only []
            exact mapFind_mapSet_self _ _ _
          · intro j
            simp only []
            by_cases hji : j = i
            · rw [hji, updThread_self]
              simp
            · rw [updThread_other _ _ _ hji]
              intro hjf
              have hjcrit : (s.threads j).inCrit = true := by
                rw [hjf]
                rfl
              have hlj := hexc j hjcrit
              rw [hl] at hlj
              injection hlj with hij
              exact hji hij.symm
        · exact absurd hp (h3 i)

/-- Every reachable state of the interleaved system satisfies the invariant,
provided no current entry for `uid` exists initially. -/
theorem sysInv_reaches {n : Nat} {uid : String} {config : ACMEIssuer}
    {privateKey : rsaPrivateKey} {r0 : registry} {s : sys}
    (hreach : Reaches n uid config privateKey r0 s)
    (h0 : hasCurrent r0 uid config privateKey = false) :
    sysInv uid config privateKey s := by
  induction hreach with
  | init =>
      refine ⟨?_, Or.inl ⟨rfl, h0, ?_, ?_⟩⟩
      · intro j hj
        simp [initSys, phase.inCrit] at hj
      · intro j
        simp [initSys]
      · intro j
        simp [initSys]
  | step hr hstep ih => exact sysInv_step hstep ih

/-- C9: for every thread count `n ≥ 1`, every interleaving of `n` concurrent
`EnsureClient` calls with identical inputs on a registry with no current
entry for `uid` — with mutual exclusion enforced by the registry-wide lock,
whose holder alone may run the compare-and-maybe-replace sequence — ends,
once all threads have returned, with exactly one client construction and the
single consistent entry built from those inputs. Mutual exclusion itself
(at most one thread inside the critical section) holds in every reachable
state. -/
theorem c9_concurrent_ensure_exactly_once (n : Nat) (uid : String)
    (config : ACMEIssuer) (privateKey : rsaPrivateKey) (r0 : registry)
    (s : sys) (h0 : hasCurrent r0 uid config privateKey = false)
    (hn : 0 < n) (hreach : Reaches n uid config privateKey r0 s)
    (hdone : ∀ i, i < n → s.threads i = phase.done) :
    s.constructions = 1
    ∧ mapFind s.reg.clients uid =
        some { iface := NewClient config privateKey
               opts := newStableOptions uid config privateKey }
    ∧ (∀ i j, (s.threads i).inCrit = true → (s.threads j).inCrit = true →
        i = j) := by
  have hinv := sysInv_reaches hreach h0
  have hmutex : ∀ i j, (s.threads i).inCrit = true →
      (s.threads j).inCrit = true → i = j := by
    intro i j hi hj
    have h1 := hinv.1 i hi
    have h2 := hinv.1 j hj
    rw [h1] at h2
    injection h2 with h
  rcases hinv.2 with ⟨h1, h2, h3, h4⟩ | ⟨h1, h2, h3⟩
  · exact absurd (hdone 0 hn) (h3 0)
  · exact ⟨h1, h2, hmutex⟩

/-- Concrete interleaving, state 0: one thread, empty shared registry. -/
def sysW0 : sys := initSys NewDefaultRegistry

/-- Concrete interleaving, state 1: thread 0 acquired the lock. -/
def sysW1 : sys :=
  { sysW0 with lock := some 0, threads := updThread sysW0.threads 0 phase.locked }

/-- Concrete interleaving, state 2: thread 0 ran the fast-path test. -/
def sysW2 : sys :=
  { sysW1 with
    threads :=
      updThread sysW1.threads 0
        (phase.checked (hasCurrent sysW1.reg "uid-1" cfgW credW)) }

/-- Concrete interleaving, state 3: thread 0 constructed, stored and
unlocked. -/
def sysW3 : sys :=
  { reg := { clients := mapSet sysW2.reg.clients "uid-1"
               { iface := NewClient cfgW credW
                 opts := newStableOptions "uid-1" cfgW credW } }
    constructions := sysW2.constructions + 1
    lock := none
    threads := updThread sysW2.threads 0 phase.done }

/-- Witness for C9: the complete run of one thread from the empty registry
ends with exactly one construction and the expected entry. -/
theorem c9_witness :
    sysW3.constructions = 1
    ∧ mapFind sysW3.reg.clients "uid-1" =
        some { iface := NewClient cfgW credW
               opts := newStableOptions "uid-1" cfgW credW }
    ∧ (∀ i j, (sysW3.threads i).inCrit = true →
        (sysW3.threads j).inCrit = true → i = j) := by
  refine c9_concurrent_ensure_exactly_once 1 "uid-1" cfgW credW
    NewDefaultRegistry sysW3 rfl Nat.one_pos ?_ ?_
  · exact Reaches.step (Reaches.step (Reaches.step Reaches.init
      (Step.acquire sysW0 0 Nat.one_pos rfl rfl))
      (Step.check sysW1 0 Nat.one_pos rfl rfl))
      (Step.finishBuild sysW2 0 Nat.one_pos rfl rfl)
  · intro i hi
    have hi0 : i = 0 := Nat.lt_one_iff.mp hi
    subst hi0
    rfl

end Concurrency

end Accounts
